import Mathlib

/-!
Verification of the OpenF1 poller engine (src/lambdas/poller/handler.py).

Shallow embedding conventions:
* A JSON record (Python `dict`) is an association list `Rec` of string keys to
  string values; `pyGet` is `dict.get` (first match), `pyGetD` is `dict.get`
  with a default.  Record values are modelled by their string form (the only
  values the engine inspects are timestamp strings and partition-key values,
  and `str` of a string is the identity); Python truthiness of a string value
  is `≠ ""`.
* Network and AWS effects are oracles passed explicitly: `fetch` yields a
  `FetchResult` (the source's `"rate_limited"` / `None` / list trichotomy),
  the Kinesis sink yields a `SinkOutcome` per chunk (an exception, or a
  `FailedRecordCount`), the wall clock is the `now` parameter, and the
  detector / SSM load results are fields of `HandlerEnv`.
* `time.sleep` calls and log statements have no observable effect and are not
  modelled.  `json.dumps` of an envelope is injective, so a Kinesis record
  carries the `Envelope` value itself rather than its byte serialization.
-/

/-- A raw record: association list modelling a JSON object (Python dict). -/
abbrev Rec := List (String × String)

/-- First-match association-list lookup (Python `dict.get`, keys unique). -/
def alistGet {β : Type} (al : List (String × β)) (k : String) : Option β :=
  match al with
  | [] => none
  | (k1, v) :: rest => if k1 = k then some v else alistGet rest k

/-- Python `d[k] = v`: replace in place if the key exists, else append. -/
def alistInsert {β : Type} (al : List (String × β)) (k : String) (v : β) :
    List (String × β) :=
  match al with
  | [] => [(k, v)]
  | (k1, v1) :: rest =>
      if k1 = k then (k, v) :: rest else (k1, v1) :: alistInsert rest k v

/-- `record.get(k)`. -/
def pyGet (r : Rec) (k : String) : Option String := alistGet r k

/-- `record.get(k, d)`. -/
def pyGetD (r : Rec) (k : String) (d : String) : String := (pyGet r k).getD d

/-- Endpoint polling tier (`"high" | "medium" | "low"`). -/
inductive Tier where
  | high
  | medium
  | low
deriving DecidableEq

/-- Static per-endpoint configuration (one entry of `ENDPOINT_CONFIGS`). -/
structure EndpointConfig where
  path : String
  tier : Tier
  date_field : String
  partition_key_field : Option String
  downsample : Bool
deriving DecidableEq

/-- The endpoint catalog, in source (dict insertion) order. -/
def ENDPOINT_CONFIGS : List (String × EndpointConfig) :=
  [("position", ⟨"/position", .high, "date", some "driver_number", false⟩),
   ("car_data", ⟨"/car_data", .high, "date", some "driver_number", true⟩),
   ("laps", ⟨"/laps", .medium, "date_start", some "driver_number", false⟩),
   ("race_control", ⟨"/race_control", .low, "date", none, false⟩),
   ("weather", ⟨"/weather", .low, "date", none, false⟩),
   ("pit", ⟨"/pit", .low, "date", some "driver_number", false⟩)]

/-- `ENDPOINT_CONFIGS.get(name)` (the source also indexes directly with
`ENDPOINT_CONFIGS[name]`, always on names produced by `select_endpoints`). -/
def configOf (endpoint_name : String) : Option EndpointConfig :=
  alistGet ENDPOINT_CONFIGS endpoint_name

/-- The tier test of the `if/elif` chain in `select_endpoints`. -/
def shouldPoll (tier : Tier) (invocation_count : Nat) : Bool :=
  match tier with
  | .high => true
  | .medium => invocation_count % 3 == 0
  | .low => invocation_count % 6 == 0

/-- The catalog entries due this cycle (the loop of `select_endpoints`,
keeping the whole entry rather than just the name). -/
def scheduledConfigs (invocation_count : Nat) : List (String × EndpointConfig) :=
  ENDPOINT_CONFIGS.filter (fun p => shouldPoll p.2.tier invocation_count)

/-- `select_endpoints(invocation_count)`: names due this cycle, catalog order. -/
def select_endpoints (invocation_count : Nat) : List String :=
  (scheduledConfigs invocation_count).map (fun p => p.1)

/-- The guard and bucket key of one `downsample_car_data` loop iteration:
`none` when the record is skipped (`not driver or not date_str`), otherwise
the `(driver, date_str[:19])` bucket key. -/
def recKey (r : Rec) : Option (String × String) :=
  match pyGet r "driver_number" with
  | none => none
  | some driver =>
      if driver = "" then none
      else
        if pyGetD r "date" "" = "" then none
        else some (driver, (pyGetD r "date" "").take 19)

/-- The two-level bucket map `buckets : driver → bucket_key → record`,
as insertion-ordered association lists (Python dict order). -/
abbrev Buckets := List (String × List (String × Rec))

/-- `buckets[driver][bucket_key] = record` on a `defaultdict(dict)`. -/
def bucketsInsert (d k : String) (r : Rec) (bs : Buckets) : Buckets :=
  match bs with
  | [] => [(d, [(k, r)])]
  | (d1, inner) :: rest =>
      if d1 = d then (d, alistInsert inner k r) :: rest
      else (d1, inner) :: bucketsInsert d k r rest

/-- One iteration of the `downsample_car_data` loop. -/
def bstep (bs : Buckets) (record : Rec) : Buckets :=
  match recKey record with
  | none => bs
  | some (d, k) => bucketsInsert d k record bs

/-- `downsample_car_data(records)`: fold records into the buckets, then
flatten `buckets.values()` in insertion order. -/
def downsample_car_data (records : List Rec) : List Rec :=
  ((records.foldl bstep []).map (fun p => p.2.map (fun q => q.2))).flatten

/-- The filtered timestamp list of `advance_cursor`
(`[r[f] for r in records if r.get(f)]`). -/
def cursorDates (records : List Rec) (date_field : String) : List String :=
  records.filterMap (fun r =>
    match pyGet r date_field with
    | some s => if s = "" then none else some s
    | none => none)

/-- `advance_cursor(records, date_field)`: `max(dates)` (Python `max` on
strings is the lexicographic maximum) guarded by the two emptiness checks. -/
def advance_cursor (records : List Rec) (date_field : String) : Option String :=
  if records = [] then none
  else
    match cursorDates records date_field with
    | [] => none
    | d :: ds => some (ds.foldl max d)

/-- The published envelope (`Data` of a Kinesis record, pre-serialization). -/
structure Envelope where
  endpoint : String
  session_key : String
  ingested_at : String
  data : Rec
deriving DecidableEq

/-- One Kinesis record: envelope plus derived partition key. -/
structure KRecord where
  Data : Envelope
  PartitionKey : String
deriving DecidableEq

/-- `str(record.get(pk_field, "global")) if pk_field else "global"`.
Python truthiness of `pk_field` (an `Option String`) is: present and
non-empty.  `str` of a string value is the identity. -/
def partitionKeyOf (pk_field : Option String) (record : Rec) : String :=
  match pk_field with
  | some k => if k = "" then "global" else pyGetD record k "global"
  | none => "global"

/-- `build_kinesis_records(endpoint_name, session_key, records)`; `now` is
the wall-clock reading taken once at the top of the source function. -/
def build_kinesis_records (endpoint_name session_key now : String)
    (records : List Rec) : List KRecord :=
  let pk_field : Option String :=
    match configOf endpoint_name with
    | some cfg => cfg.partition_key_field
    | none => none
  records.map (fun record =>
    { Data := { endpoint := endpoint_name, session_key := session_key,
                ingested_at := now, data := record },
      PartitionKey := partitionKeyOf pk_field record })

/-- `build_kinesis_records_oneshot` (partition key
`str(record.get("driver_number", "global"))`). -/
def build_kinesis_records_oneshot (endpoint_name session_key now : String)
    (records : List Rec) : List KRecord :=
  records.map (fun record =>
    { Data := { endpoint := endpoint_name, session_key := session_key,
                ingested_at := now, data := record },
      PartitionKey := pyGetD record "driver_number" "global" })

/-- Outcome of one `kinesis.put_records` call: a raised exception, or a
response with the given `FailedRecordCount`. -/
inductive SinkOutcome where
  | err
  | ok (failedRecordCount : Nat)
deriving DecidableEq

/-- The chunking of `for i in range(0, len(records), 500): records[i:i+500]`. -/
def chunksOf500 {α : Type} (l : List α) : List (List α) :=
  match l with
  | [] => []
  | x :: xs => (x :: xs).take 500 :: chunksOf500 ((x :: xs).drop 500)
termination_by l.length
decreasing_by
  simp only [List.length_drop, List.length_cons]
  omega

/-- The accumulation loop of `put_records_batch`: per chunk, an exception
contributes nothing, otherwise `len(chunk) - failed` is added. -/
def sendChunks (sink : Nat → SinkOutcome) (idx : Nat)
    (chunks : List (List KRecord)) (acc : Int) : Int :=
  match chunks with
  | [] => acc
  | c :: rest =>
      match sink idx with
      | .err => sendChunks sink (idx + 1) rest acc
      | .ok failed => sendChunks sink (idx + 1) rest (acc + ((c.length : Int) - (failed : Int)))

/-- `put_records_batch(kinesis, stream, records)`; `sink` maps the chunk
index to the outcome of its `put_records` call. -/
def put_records_batch (sink : Nat → SinkOutcome) (records : List KRecord) : Int :=
  if records = [] then 0 else sendChunks sink 0 (chunksOf500 records) 0

/-- The persisted polling state (the single SSM JSON parameter). -/
structure PollState where
  session_key : String
  invocation_count : Nat
  cursors : List (String × String)
deriving DecidableEq

/-- `get_initial_state(session_key)`. -/
def get_initial_state (session_key : String) : PollState :=
  { session_key := session_key, invocation_count := 0, cursors := [] }

/-- Result of one `fetch_endpoint` call: `"rate_limited"`, `None`, or a
record list (the source returns exactly these three shapes). -/
inductive FetchResult where
  | rateLimited
  | failed
  | success (records : List Rec)
deriving DecidableEq

/-- Trace entry for one `fetch_endpoint` call issued by the cycle loop. -/
structure FetchCall where
  endpoint : String
  cursor : Option String
  result : FetchResult
deriving DecidableEq

/-- External environment of one poll cycle: the fetch oracle, the Kinesis
sink oracle, the configured stream name and the wall clock reading. -/
structure CycleEnv where
  fetch : String → Option String → FetchResult
  sink : Nat → SinkOutcome
  streamName : String
  now : String

/-- `downsample_car_data` applied when the endpoint is flagged for it. -/
def endpointRecords (cfg : EndpointConfig) (records : List Rec) : List Rec :=
  if cfg.downsample then downsample_car_data records else records

/-- Result of the endpoint loop of `run_poll_cycle`: final cursors, the
accumulated `all_kinesis_records`, and the trace of fetch calls made. -/
structure LoopOut where
  cursors : List (String × String)
  published : List KRecord
  calls : List FetchCall
deriving DecidableEq

/-- The endpoint loop of `run_poll_cycle`: per scheduled endpoint, fetch with
the stored cursor; on `rate_limited` break; on `None` skip (cursor
untouched); on an empty list skip; otherwise downsample if configured, build
envelopes, and advance the cursor to the max date of the (post-downsample)
records. -/
def cycleLoop (env : CycleEnv) (session_key : String)
    (es : List (String × EndpointConfig)) (cursors : List (String × String)) :
    LoopOut :=
  match es with
  | [] => { cursors := cursors, published := [], calls := [] }
  | (name, cfg) :: rest =>
      let cursor := alistGet cursors name
      match env.fetch name cursor with
      | .rateLimited =>
          { cursors := cursors, published := [],
            calls := [⟨name, cursor, .rateLimited⟩] }
      | .failed =>
          let out := cycleLoop env session_key rest cursors
          { cursors := out.cursors, published := out.published,
            calls := ⟨name, cursor, .failed⟩ :: out.calls }
      | .success records =>
          if records = [] then
            let out := cycleLoop env session_key rest cursors
            { cursors := out.cursors, published := out.published,
              calls := ⟨name, cursor, .success records⟩ :: out.calls }
          else
            let processed := endpointRecords cfg records
            let ks := build_kinesis_records name session_key env.now processed
            let cursors1 :=
              match advance_cursor processed cfg.date_field with
              | some c => alistInsert cursors name c
              | none => cursors
            let out := cycleLoop env session_key rest cursors1
            { cursors := out.cursors, published := ks ++ out.published,
              calls := ⟨name, cursor, .success records⟩ :: out.calls }

/-- Result of `run_poll_cycle`: the mutated state, the cycle's sent total,
and the loop trace. -/
structure CycleOut where
  state : PollState
  sent : Int
  calls : List FetchCall
  published : List KRecord
deriving DecidableEq

/-- `run_poll_cycle(state)`: run the endpoint loop over the scheduled
endpoints, flush to Kinesis when there are records and a stream name, and
increment `invocation_count`. -/
def run_poll_cycle (env : CycleEnv) (st : PollState) : CycleOut :=
  let out := cycleLoop env st.session_key
    (scheduledConfigs st.invocation_count) st.cursors
  let sent : Int :=
    if out.published ≠ [] ∧ env.streamName ≠ "" then
      put_records_batch env.sink out.published
    else 0
  { state := { session_key := st.session_key,
               invocation_count := st.invocation_count + 1,
               cursors := out.cursors },
    sent := sent, calls := out.calls, published := out.published }

/-- `CYCLES_PER_INVOCATION`. -/
def CYCLES_PER_INVOCATION : Nat := 11

/-- The session-initialization step of `lambda_handler` (lines 460-464):
fresh state when no prior state exists or the stored key differs from the
detected one; the Bool is `session_changed`. -/
def handlerInit (stored : Option PollState) (session_key : String) :
    PollState × Bool :=
  match stored with
  | none => (get_initial_state session_key, true)
  | some st =>
      if st.session_key ≠ session_key then (get_initial_state session_key, true)
      else (st, false)

/-- External environment of one invocation: the loaded prior state, the
detector result (`session_key` and session record), the driver-list fetch
result, configuration, and per-cycle oracles. -/
structure HandlerEnv where
  stored : Option PollState
  detected : Option (String × Rec)
  drivers : Option (List Rec)
  streamName : String
  now : String
  fetch : Nat → String → Option String → FetchResult
  sink : Nat → Nat → SinkOutcome
  oneshotSink : Nat → SinkOutcome

/-- The response body of `lambda_handler` (the JSON under `"body"`). -/
inductive Body where
  | message (s : String)
  | summary (session_key : String) (cycles : Nat) (total_records_sent : Int)
deriving DecidableEq

/-- Observable outcome of one invocation: the response body, the sequence of
states written to SSM (one per executed cycle), the number of poll cycles
run, and the one-time records published on a session change. -/
structure HandlerOut where
  body : Body
  saved : List PollState
  cyclesRun : Nat
  oneshotPublished : List KRecord
  oneshotSent : Int
deriving DecidableEq

/-- The cycle environment `lambda_handler` supplies to cycle `i`. -/
def cycleEnvAt (env : HandlerEnv) (i : Nat) : CycleEnv :=
  { fetch := env.fetch i, sink := env.sink i,
    streamName := env.streamName, now := env.now }

/-- One iteration of the cycle loop in `lambda_handler`: run the cycle,
accumulate the sent total, and record the state written by `save_state`. -/
def cycleStep (env : HandlerEnv) (acc : PollState × Int × List PollState)
    (i : Nat) : PollState × Int × List PollState :=
  let out := run_poll_cycle (cycleEnvAt env i) acc.1
  (out.state, acc.2.1 + out.sent, acc.2.2 ++ [out.state])

/-- `lambda_handler(event, context)`.  The no-session branch returns the
`"no active session"` body before any state is touched; otherwise the state
is set up, one-time `sessions`/`drivers` records are published on a
session change, and `CYCLES_PER_INVOCATION` poll cycles run, saving state
after each. -/
def lambda_handler (env : HandlerEnv) : HandlerOut :=
  match env.detected with
  | none =>
      { body := .message "no active session", saved := [], cyclesRun := 0,
        oneshotPublished := [], oneshotSent := 0 }
  | some (key, sdata) =>
      let init := handlerInit env.stored key
      let st0 := init.1
      let changed := init.2
      let oneshot : List KRecord :=
        if changed ∧ env.streamName ≠ "" then
          (if sdata ≠ [] then
            build_kinesis_records_oneshot "sessions" key env.now [sdata]
           else []) ++
          (match env.drivers with
           | some ds =>
               if ds ≠ [] then
                 build_kinesis_records_oneshot "drivers" key env.now ds
               else []
           | none => [])
        else []
      let oneshotSent : Int :=
        if oneshot ≠ [] then put_records_batch env.oneshotSink oneshot else 0
      let res := (List.range CYCLES_PER_INVOCATION).foldl (cycleStep env)
        (st0, 0, [])
      { body := .summary key CYCLES_PER_INVOCATION res.2.1,
        saved := res.2.2, cyclesRun := CYCLES_PER_INVOCATION,
        oneshotPublished := oneshot, oneshotSent := oneshotSent }

/-- The envelopes one traced fetch call contributes to the cycle's publish
list: empty unless the call succeeded with a non-empty record list. -/
def callEnvelopes (now session_key : String) (c : FetchCall) : List KRecord :=
  match c.result with
  | .success records =>
      if records = [] then []
      else
        match configOf c.endpoint with
        | some cfg =>
            build_kinesis_records c.endpoint session_key now
              (endpointRecords cfg records)
        | none => []
  | _ => []

/-- Total number of records held in the downsampling buckets. -/
def bucketsSize (bs : Buckets) : Nat :=
  (bs.map (fun p => p.2.length)).sum

/-- Invariant of the downsampling buckets: distinct drivers, distinct bucket
keys per driver, and every stored record matches its own bucket key. -/
def BucketsInv (bs : Buckets) : Prop :=
  (bs.map (fun p => p.1)).Nodup ∧
  (∀ p ∈ bs, (p.2.map (fun q => q.1)).Nodup) ∧
  (∀ p ∈ bs, ∀ q ∈ p.2, recKey q.2 = some (p.1, q.1))

/-! ## Helper lemmas -/

theorem alistGet_alistInsert_ne {β : Type} (al : List (String × β))
    (k n : String) (v : β) (h : k ≠ n) :
    alistGet (alistInsert al k v) n = alistGet al n := by
  induction al with
  | nil => simp [alistGet, alistInsert, h]
  | cons p rest ih =>
    obtain ⟨k1, v1⟩ := p
    by_cases hk : k1 = k
    · subst hk
      simp [alistInsert, alistGet, h]
    · simp only [alistInsert, if_neg hk]
      by_cases hn : k1 = n
      · simp [alistGet, hn]
      · simp [alistGet, hn, ih]

theorem alistInsert_length {β : Type} (al : List (String × β)) (k : String)
    (v : β) : (alistInsert al k v).length ≤ al.length + 1 := by
  induction al with
  | nil => simp [alistInsert]
  | cons p rest ih =>
    obtain ⟨k1, v1⟩ := p
    by_cases h : k1 = k
    · simp [alistInsert, h]
    · simp only [alistInsert, if_neg h, List.length_cons]
      omega

theorem alistInsert_keys_subset {β : Type} (al : List (String × β))
    (k : String) (v : β) :
    ∀ x ∈ (alistInsert al k v).map (fun p => p.1),
      x = k ∨ x ∈ al.map (fun p => p.1) := by
  induction al with
  | nil => simp [alistInsert]
  | cons p rest ih =>
    obtain ⟨k1, v1⟩ := p
    by_cases h : k1 = k
    · simp [alistInsert, h]
    · intro x hx
      simp only [alistInsert, if_neg h, List.map_cons, List.mem_cons] at hx
      rcases hx with rfl | hx
      · simp
      · rcases ih x hx with h1 | h1
        · exact Or.inl h1
        · simp [h1]

theorem alistInsert_keys_nodup {β : Type} (al : List (String × β))
    (k : String) (v : β) (h : (al.map (fun p => p.1)).Nodup) :
    ((alistInsert al k v).map (fun p => p.1)).Nodup := by
  induction al with
  | nil => simp [alistInsert]
  | cons p rest ih =>
    obtain ⟨k1, v1⟩ := p
    simp only [List.map_cons, List.nodup_cons] at h
    by_cases hk : k1 = k
    · subst hk
      have he : alistInsert ((k1, v1) :: rest) k1 v = (k1, v) :: rest := by
        simp [alistInsert]
      rw [he]
      simp only [List.map_cons, List.nodup_cons]
      exact h
    · simp only [alistInsert, if_neg hk, List.map_cons, List.nodup_cons]
      refine ⟨fun hmem => ?_, ih h.2⟩
      rcases alistInsert_keys_subset rest k v k1 hmem with h1 | h1
      · exact hk h1
      · exact h.1 h1

theorem alistInsert_mem {β : Type} (al : List (String × β)) (k : String)
    (v : β) : ∀ q ∈ alistInsert al k v, q = (k, v) ∨ q ∈ al := by
  induction al with
  | nil => simp [alistInsert]
  | cons p rest ih =>
    obtain ⟨k1, v1⟩ := p
    by_cases h : k1 = k
    · intro q hq
      simp only [alistInsert, if_pos h, List.mem_cons] at hq
      rcases hq with rfl | hq
      · exact Or.inl rfl
      · exact Or.inr (List.mem_cons_of_mem _ hq)
    · intro q hq
      simp only [alistInsert, if_neg h, List.mem_cons] at hq
      rcases hq with rfl | hq
      · exact Or.inr (List.mem_cons_self _ _)
      · rcases ih q hq with h1 | h1
        · exact Or.inl h1
        · exact Or.inr (List.mem_cons_of_mem _ h1)

theorem chunksOf500_length_le {α : Type} (l : List α) :
    ∀ c ∈ chunksOf500 l, c.length ≤ 500 := by
  induction l using chunksOf500.induct with
  | case1 => simp [chunksOf500]
  | case2 x xs ih =>
    intro c hc
    rw [chunksOf500] at hc
    rcases List.mem_cons.mp hc with rfl | hc
    · simp only [List.length_take]
      omega
    · exact ih c hc

theorem chunksOf500_flatten {α : Type} (l : List α) :
    (chunksOf500 l).flatten = l := by
  induction l using chunksOf500.induct with
  | case1 => simp [chunksOf500]
  | case2 x xs ih =>
    rw [chunksOf500]
    simp only [List.flatten_cons, ih]
    exact List.take_append_drop 500 (x :: xs)

theorem sendChunks_ok_zero (sink : Nat → SinkOutcome)
    (hs : ∀ j, sink j = .ok 0) (chunks : List (List KRecord)) :
    ∀ idx acc, sendChunks sink idx chunks acc =
      acc + ((chunks.map (fun c => (c.length : Int))).sum) := by
  induction chunks with
  | nil => simp [sendChunks]
  | cons c rest ih =>
    intro idx acc
    simp only [sendChunks, hs idx]
    rw [ih]
    simp only [List.map_cons, List.sum_cons]
    push_cast
    ring

theorem put_records_batch_ok_zero (sink : Nat → SinkOutcome)
    (hs : ∀ j, sink j = .ok 0) (l : List KRecord) :
    put_records_batch sink l = (l.length : Int) := by
  rw [put_records_batch]
  by_cases h : l = []
  · simp [h]
  · rw [if_neg h, sendChunks_ok_zero sink hs]
    have hlen : ((chunksOf500 l).map List.length).sum = l.length := by
      rw [← List.length_flatten, chunksOf500_flatten]
    calc (0 : Int) + ((chunksOf500 l).map (fun c => (c.length : Int))).sum
        = (((chunksOf500 l).map List.length).sum : Int) := by
          rw [zero_add]
          induction chunksOf500 l with
          | nil => simp
          | cons c rest ih => simp [ih]
      _ = (l.length : Int) := by rw [hlen]

theorem foldl_max_mem {α : Type} [LinearOrder α] (ds : List α) (d : α) :
    ds.foldl max d ∈ d :: ds := by
  induction ds generalizing d with
  | nil => simp
  | cons x xs ih =>
    rw [List.foldl_cons]
    rcases List.mem_cons.mp (ih (max d x)) with h1 | h1
    · rcases max_choice d x with hm | hm
      · rw [h1, hm]; exact List.mem_cons_self _ _
      · rw [h1, hm]; exact List.mem_cons_of_mem _ (List.mem_cons_self _ _)
    · exact List.mem_cons_of_mem _ (List.mem_cons_of_mem _ h1)

theorem le_foldl_max {α : Type} [LinearOrder α] (ds : List α) (d : α) :
    d ≤ ds.foldl max d := by
  induction ds generalizing d with
  | nil => simp
  | cons x xs ih =>
    rw [List.foldl_cons]
    exact le_trans (le_max_left d x) (ih (max d x))

theorem mem_le_foldl_max {α : Type} [LinearOrder α] (ds : List α) (x : α) :
    ∀ d, x ∈ ds → x ≤ ds.foldl max d := by
  induction ds with
  | nil =>
    intro d hx
    cases hx
  | cons y ys ih =>
    intro d hx
    rw [List.foldl_cons]
    rcases List.mem_cons.mp hx with rfl | h
    · exact le_trans (le_max_right d x) (le_foldl_max ys (max d x))
    · exact ih (max d y) h

theorem mem_cons_le_foldl_max {α : Type} [LinearOrder α] (ds : List α)
    (d x : α) (hx : x ∈ d :: ds) : x ≤ ds.foldl max d := by
  rcases List.mem_cons.mp hx with rfl | h
  · exact le_foldl_max ds x
  · exact mem_le_foldl_max ds x d h

theorem catalog_configOf : ∀ p ∈ ENDPOINT_CONFIGS, configOf p.1 = some p.2 := by
  decide

theorem catalog_names_nodup : (ENDPOINT_CONFIGS.map (fun p => p.1)).Nodup := by
  decide

theorem catalog_key_unique :
    ∀ p ∈ ENDPOINT_CONFIGS, ∀ q ∈ ENDPOINT_CONFIGS, p.1 = q.1 → p.2 = q.2 := by
  decide

theorem scheduled_configOf (count : Nat) :
    ∀ p ∈ scheduledConfigs count, configOf p.1 = some p.2 :=
  fun p hp => catalog_configOf p (List.mem_of_mem_filter hp)

theorem scheduled_names_nodup (count : Nat) :
    ((scheduledConfigs count).map (fun p => p.1)).Nodup :=
  ((List.filter_sublist ENDPOINT_CONFIGS).map (fun p => p.1)).nodup
    catalog_names_nodup

theorem cycleLoop_calls_take (env : CycleEnv) (key : String)
    (es : List (String × EndpointConfig)) :
    ∀ cs : List (String × String),
      (cycleLoop env key es cs).calls.map (fun c => c.endpoint) =
        (es.map (fun p => p.1)).take (cycleLoop env key es cs).calls.length := by
  induction es with
  | nil =>
    intro cs
    simp [cycleLoop]
  | cons p rest ih =>
    intro cs
    obtain ⟨name, cfg⟩ := p
    cases hf : env.fetch name (alistGet cs name) with
    | rateLimited => simp [cycleLoop, hf]
    | failed =>
      simp only [cycleLoop, hf, List.map_cons, List.length_cons,
        List.take_succ_cons]
      rw [ih cs]
    | success records =>
      by_cases hr : records = []
      · simp only [cycleLoop, hf, if_pos hr, List.map_cons, List.length_cons,
          List.take_succ_cons]
        rw [ih cs]
      · simp only [cycleLoop, hf, if_neg hr, List.map_cons, List.length_cons,
          List.take_succ_cons]
        rw [ih]

theorem cycleLoop_rateLimited_last (env : CycleEnv) (key : String)
    (es : List (String × EndpointConfig)) :
    ∀ (cs : List (String × String)) (i : Nat) (c : FetchCall),
      (cycleLoop env key es cs).calls[i]? = some c →
      c.result = .rateLimited →
      i + 1 = (cycleLoop env key es cs).calls.length := by
  induction es with
  | nil =>
    intro cs i c hc
    simp [cycleLoop] at hc
  | cons p rest ih =>
    intro cs i c hc hres
    obtain ⟨name, cfg⟩ := p
    cases hf : env.fetch name (alistGet cs name) with
    | rateLimited =>
      simp only [cycleLoop, hf] at hc ⊢
      cases i with
      | zero => simp
      | succ j => simp at hc
    | failed =>
      simp only [cycleLoop, hf] at hc ⊢
      cases i with
      | zero =>
        simp only [List.getElem?_cons_zero, Option.some.injEq] at hc
        rw [← hc] at hres
        simp at hres
      | succ j =>
        simp only [List.getElem?_cons_succ] at hc
        simp only [List.length_cons]
        have := ih cs j c hc hres
        omega
    | success records =>
      by_cases hr : records = []
      · simp only [cycleLoop, hf, if_pos hr] at hc ⊢
        cases i with
        | zero =>
          simp only [List.getElem?_cons_zero, Option.some.injEq] at hc
          rw [← hc] at hres
          simp at hres
        | succ j =>
          simp only [List.getElem?_cons_succ] at hc
          simp only [List.length_cons]
          have := ih cs j c hc hres
          omega
      · simp only [cycleLoop, hf, if_neg hr] at hc ⊢
        cases i with
        | zero =>
          simp only [List.getElem?_cons_zero, Option.some.injEq] at hc
          rw [← hc] at hres
          simp at hres
        | succ j =>
          simp only [List.getElem?_cons_succ] at hc
          simp only [List.length_cons]
          have := ih _ j c hc hres
          omega

theorem cycleLoop_calls_endpoints (env : CycleEnv) (key : String)
    (es : List (String × EndpointConfig)) :
    ∀ cs : List (String × String),
      ∀ c ∈ (cycleLoop env key es cs).calls,
        c.endpoint ∈ es.map (fun p => p.1) := by
  induction es with
  | nil =>
    intro cs c hc
    simp [cycleLoop] at hc
  | cons p rest ih =>
    intro cs c hc
    obtain ⟨name, cfg⟩ := p
    cases hf : env.fetch name (alistGet cs name) with
    | rateLimited =>
      simp only [cycleLoop, hf, List.mem_singleton] at hc
      simp [hc]
    | failed =>
      simp only [cycleLoop, hf, List.mem_cons] at hc
      rcases hc with rfl | hc
      · simp
      · exact List.mem_cons_of_mem _ (ih cs c hc)
    | success records =>
      by_cases hr : records = []
      · simp only [cycleLoop, hf, if_pos hr, List.mem_cons] at hc
        rcases hc with rfl | hc
        · simp
        · exact List.mem_cons_of_mem _ (ih cs c hc)
      · simp only [cycleLoop, hf, if_neg hr, List.mem_cons] at hc
        rcases hc with rfl | hc
        · simp
        · exact List.mem_cons_of_mem _ (ih _ c hc)

theorem cycleLoop_cursors_not_mem (env : CycleEnv) (key : String)
    (es : List (String × EndpointConfig)) :
    ∀ (cs : List (String × String)) (n : String),
      n ∉ es.map (fun p => p.1) →
      alistGet (cycleLoop env key es cs).cursors n = alistGet cs n := by
  induction es with
  | nil =>
    intro cs n _
    simp [cycleLoop]
  | cons p rest ih =>
    intro cs n hn
    obtain ⟨name, cfg⟩ := p
    simp only [List.map_cons, List.mem_cons, not_or] at hn
    cases hf : env.fetch name (alistGet cs name) with
    | rateLimited => simp [cycleLoop, hf]
    | failed =>
      simp only [cycleLoop, hf]
      exact ih cs n hn.2
    | success records =>
      by_cases hr : records = []
      · simp only [cycleLoop, hf, if_pos hr]
        exact ih cs n hn.2
      · simp only [cycleLoop, hf, if_neg hr]
        cases hadv : advance_cursor (endpointRecords cfg records) cfg.date_field with
        | none =>
          simp only [hadv]
          exact ih cs n hn.2
        | some cnew =>
          simp only [hadv]
          rw [ih _ n hn.2]
          exact alistGet_alistInsert_ne cs name n cnew (fun h => hn.1 h.symm)

theorem cycleLoop_failed_cursor (env : CycleEnv) (key : String)
    (es : List (String × EndpointConfig)) :
    ∀ cs : List (String × String),
      (es.map (fun p => p.1)).Nodup →
      ∀ c ∈ (cycleLoop env key es cs).calls, c.result = .failed →
        alistGet (cycleLoop env key es cs).cursors c.endpoint =
          alistGet cs c.endpoint := by
  induction es with
  | nil =>
    intro cs _ c hc
    simp [cycleLoop] at hc
  | cons p rest ih =>
    intro cs hnd c hc hres
    obtain ⟨name, cfg⟩ := p
    simp only [List.map_cons, List.nodup_cons] at hnd
    cases hf : env.fetch name (alistGet cs name) with
    | rateLimited =>
      simp [cycleLoop, hf]
    | failed =>
      simp only [cycleLoop, hf, List.mem_cons] at hc ⊢
      rcases hc with rfl | hc
      · exact cycleLoop_cursors_not_mem env key rest cs name hnd.1
      · exact ih cs hnd.2 c hc hres
    | success records =>
      by_cases hr : records = []
      · simp only [cycleLoop, hf, if_pos hr, List.mem_cons] at hc ⊢
        rcases hc with rfl | hc
        · simp at hres
        · exact ih cs hnd.2 c hc hres
      · simp only [cycleLoop, hf, if_neg hr, List.mem_cons] at hc ⊢
        rcases hc with rfl | hc
        · simp at hres
        · have hend : c.endpoint ∈ rest.map (fun p => p.1) :=
            cycleLoop_calls_endpoints env key rest _ c hc
          have hne : name ≠ c.endpoint := fun h => hnd.1 (h ▸ hend)
          cases hadv : advance_cursor (endpointRecords cfg records)
              cfg.date_field with
          | none =>
            simp only [hadv]
            simp only [hadv] at hc
            exact ih cs hnd.2 c hc hres
          | some cnew =>
            simp only [hadv]
            simp only [hadv] at hc
            rw [ih _ hnd.2 c hc hres]
            exact alistGet_alistInsert_ne cs name c.endpoint cnew hne

theorem cycleLoop_published_eq (env : CycleEnv) (key : String)
    (es : List (String × EndpointConfig)) :
    ∀ cs : List (String × String),
      (∀ p ∈ es, configOf p.1 = some p.2) →
      (cycleLoop env key es cs).published =
        ((cycleLoop env key es cs).calls.map
          (callEnvelopes env.now key)).flatten := by
  induction es with
  | nil =>
    intro cs _
    simp [cycleLoop]
  | cons p rest ih =>
    intro cs hcfg
    obtain ⟨name, cfg⟩ := p
    have hhead : configOf name = some cfg := hcfg (name, cfg) (by simp)
    have htail : ∀ p ∈ rest, configOf p.1 = some p.2 :=
      fun p hp => hcfg p (List.mem_cons_of_mem _ hp)
    cases hf : env.fetch name (alistGet cs name) with
    | rateLimited => simp [cycleLoop, hf, callEnvelopes]
    | failed =>
      simp only [cycleLoop, hf, List.map_cons, List.flatten_cons]
      rw [ih cs htail]
      simp [callEnvelopes]
    | success records =>
      by_cases hr : records = []
      · simp only [cycleLoop, hf, if_pos hr, List.map_cons, List.flatten_cons]
        rw [ih cs htail]
        simp [callEnvelopes, hr]
      · simp only [cycleLoop, hf, if_neg hr, List.map_cons, List.flatten_cons]
        rw [ih _ htail]
        simp [callEnvelopes, if_neg hr, hhead]

theorem bucketsInsert_size (d k : String) (r : Rec) (bs : Buckets) :
    bucketsSize (bucketsInsert d k r bs) ≤ bucketsSize bs + 1 := by
  induction bs with
  | nil => simp [bucketsInsert, bucketsSize]
  | cons p rest ih =>
    obtain ⟨d1, inner⟩ := p
    by_cases h : d1 = d
    · simp only [bucketsInsert, if_pos h, bucketsSize, List.map_cons,
        List.sum_cons]
      have := alistInsert_length inner k r
      simp only [bucketsSize] at *
      omega
    · simp only [bucketsInsert, if_neg h, bucketsSize, List.map_cons,
        List.sum_cons]
      simp only [bucketsSize] at ih
      omega

theorem bstep_size (bs : Buckets) (r : Rec) :
    bucketsSize (bstep bs r) ≤ bucketsSize bs + 1 := by
  cases hk : recKey r with
  | none =>
    simp only [bstep, hk]
    omega
  | some dk =>
    obtain ⟨d, k⟩ := dk
    simp only [bstep, hk]
    exact bucketsInsert_size d k r bs

theorem foldl_bstep_size (records : List Rec) :
    ∀ bs : Buckets,
      bucketsSize (records.foldl bstep bs) ≤ bucketsSize bs + records.length := by
  induction records with
  | nil => simp
  | cons r rest ih =>
    intro bs
    have h1 := ih (bstep bs r)
    have h2 := bstep_size bs r
    simp only [List.foldl_cons, List.length_cons]
    omega

theorem downsample_length_eq (records : List Rec) :
    (downsample_car_data records).length =
      bucketsSize (records.foldl bstep []) := by
  simp only [downsample_car_data, bucketsSize, List.length_flatten,
    List.map_map]
  have hfun : (List.length ∘ fun p : String × List (String × Rec) =>
      List.map (fun q => q.2) p.2) = fun p => p.2.length := by
    funext p
    simp
  rw [hfun]

theorem bucketsInsert_keys_subset (d k : String) (r : Rec) (bs : Buckets) :
    ∀ x ∈ (bucketsInsert d k r bs).map (fun p => p.1),
      x = d ∨ x ∈ bs.map (fun p => p.1) := by
  induction bs with
  | nil => simp [bucketsInsert]
  | cons p rest ih =>
    obtain ⟨d1, inner⟩ := p
    by_cases h : d1 = d
    · intro x hx
      simp only [bucketsInsert, if_pos h, List.map_cons, List.mem_cons] at hx
      rcases hx with rfl | hx
      · exact Or.inl rfl
      · simp [hx]
    · intro x hx
      simp only [bucketsInsert, if_neg h, List.map_cons, List.mem_cons] at hx
      rcases hx with rfl | hx
      · simp
      · rcases ih x hx with h1 | h1
        · exact Or.inl h1
        · simp [h1]

theorem bucketsInsert_inv (d k : String) (r : Rec) (bs : Buckets)
    (hkey : recKey r = some (d, k)) (h : BucketsInv bs) :
    BucketsInv (bucketsInsert d k r bs) := by
  induction bs with
  | nil =>
    refine ⟨?_, ?_, ?_⟩
    · simp [bucketsInsert]
    · intro p hp
      simp only [bucketsInsert, List.mem_singleton] at hp
      simp [hp]
    · intro p hp q hq
      simp only [bucketsInsert, List.mem_singleton] at hp
      subst hp
      simp only [List.mem_singleton] at hq
      subst hq
      exact hkey
  | cons p0 rest ih =>
    obtain ⟨d1, inner⟩ := p0
    obtain ⟨hnd, hinner, hrec⟩ := h
    simp only [List.map_cons, List.nodup_cons] at hnd
    by_cases hd : d1 = d
    · subst hd
      have he : bucketsInsert d1 k r ((d1, inner) :: rest) =
          (d1, alistInsert inner k r) :: rest := by
        simp [bucketsInsert]
      rw [he]
      refine ⟨?_, ?_, ?_⟩
      · simp only [List.map_cons, List.nodup_cons]
        exact hnd
      · intro p hp
        rcases List.mem_cons.mp hp with rfl | hp
        · exact alistInsert_keys_nodup inner k r
            (hinner (d1, inner) (List.mem_cons_self _ _))
        · exact hinner p (List.mem_cons_of_mem _ hp)
      · intro p hp q hq
        rcases List.mem_cons.mp hp with rfl | hp
        · rcases alistInsert_mem inner k r q hq with rfl | hq1
          · exact hkey
          · exact hrec (d1, inner) (List.mem_cons_self _ _) q hq1
        · exact hrec p (List.mem_cons_of_mem _ hp) q hq
    · have he : bucketsInsert d k r ((d1, inner) :: rest) =
          (d1, inner) :: bucketsInsert d k r rest := by
        simp [bucketsInsert, hd]
      rw [he]
      have hrest : BucketsInv rest :=
        ⟨hnd.2, fun p hp => hinner p (List.mem_cons_of_mem _ hp),
         fun p hp => hrec p (List.mem_cons_of_mem _ hp)⟩
      obtain ⟨ihnd, ihinner, ihrec⟩ := ih hrest
      refine ⟨?_, ?_, ?_⟩
      · simp only [List.map_cons, List.nodup_cons]
        refine ⟨fun hmem => ?_, ihnd⟩
        rcases bucketsInsert_keys_subset d k r rest d1 hmem with h1 | h1
        · exact hd h1
        · exact hnd.1 h1
      · intro p hp
        rcases List.mem_cons.mp hp with rfl | hp
        · exact hinner (d1, inner) (List.mem_cons_self _ _)
        · exact ihinner p hp
      · intro p hp q hq
        rcases List.mem_cons.mp hp with rfl | hp
        · exact hrec (d1, inner) (List.mem_cons_self _ _) q hq
        · exact ihrec p hp q hq

theorem bstep_inv (bs : Buckets) (r : Rec) (h : BucketsInv bs) :
    BucketsInv (bstep bs r) := by
  unfold bstep
  cases hk : recKey r with
  | none => exact h
  | some dk => exact bucketsInsert_inv dk.1 dk.2 r bs (by rw [hk]) h

theorem foldl_bstep_inv (records : List Rec) :
    ∀ bs : Buckets, BucketsInv bs → BucketsInv (records.foldl bstep bs) := by
  induction records with
  | nil => exact fun bs h => h
  | cons r rest ih =>
    intro bs h
    simp only [List.foldl_cons]
    exact ih (bstep bs r) (bstep_inv bs r h)

theorem bucketsInv_nil : BucketsInv [] := by
  refine ⟨List.nodup_nil, ?_, ?_⟩ <;> simp

theorem recKey_some (r : Rec) (d k : String) (h : recKey r = some (d, k)) :
    pyGet r "driver_number" = some d ∧ k = (pyGetD r "date" "").take 19 := by
  unfold recKey at h
  cases hg : pyGet r "driver_number" with
  | none =>
    rw [hg] at h
    cases h
  | some driver =>
    rw [hg] at h
    by_cases h1 : driver = ""
    · simp [h1] at h
    · by_cases h2 : pyGetD r "date" "" = ""
      · simp [h1, h2] at h
      · simp only [if_neg h1, if_neg h2, Option.some.injEq, Prod.mk.injEq] at h
        exact ⟨congrArg some h.1, h.2.symm⟩

theorem bucketsInv_output_pairwise (bs : Buckets) (h : BucketsInv bs) :
    ((bs.map (fun p => p.2.map (fun q => q.2))).flatten).Pairwise
      (fun r1 r2 => recKey r1 ≠ recKey r2) := by
  rw [List.pairwise_flatten]
  obtain ⟨hnd, hinner, hrec⟩ := h
  constructor
  · intro l hl
    rcases List.mem_map.mp hl with ⟨p, hp, rfl⟩
    rw [List.pairwise_map]
    have hkeys : List.Pairwise (fun q1 q2 => q1.1 ≠ q2.1) p.2 :=
      List.pairwise_map.mp (hinner p hp)
    refine hkeys.imp_of_mem ?_
    intro a b ha hb hne heq
    have e1 := hrec p hp a ha
    have e2 := hrec p hp b hb
    rw [e1, e2] at heq
    simp only [Option.some.injEq, Prod.mk.injEq] at heq
    exact hne heq.2
  · rw [List.pairwise_map]
    have houter : List.Pairwise (fun p1 p2 => p1.1 ≠ p2.1) bs :=
      List.pairwise_map.mp hnd
    refine houter.imp_of_mem ?_
    intro p1 p2 h1m h2m hne x hx y hy heq
    rcases List.mem_map.mp hx with ⟨q1, hq1, rfl⟩
    rcases List.mem_map.mp hy with ⟨q2, hq2, rfl⟩
    have e1 := hrec p1 h1m q1 hq1
    have e2 := hrec p2 h2m q2 hq2
    rw [e1, e2] at heq
    simp only [Option.some.injEq, Prod.mk.injEq] at heq
    exact hne heq.1

theorem downsample_mem_recKey (records : List Rec) :
    ∀ r ∈ downsample_car_data records, ∃ d k, recKey r = some (d, k) := by
  intro r hr
  obtain ⟨hnd, hinner, hrec⟩ := foldl_bstep_inv records [] bucketsInv_nil
  simp only [downsample_car_data, List.mem_flatten] at hr
  obtain ⟨l, hl, hrl⟩ := hr
  rcases List.mem_map.mp hl with ⟨p, hp, rfl⟩
  rcases List.mem_map.mp hrl with ⟨q, hq, rfl⟩
  exact ⟨p.1, q.1, hrec p hp q hq⟩

theorem downsample_pairwise_recKey (records : List Rec) :
    (downsample_car_data records).Pairwise
      (fun r1 r2 => recKey r1 ≠ recKey r2) :=
  bucketsInv_output_pairwise (records.foldl bstep [])
    (foldl_bstep_inv records [] bucketsInv_nil)

theorem select_endpoints_mem_iff (c : Nat) (n : String) :
    n ∈ select_endpoints c ↔
      ∃ cfg, (n, cfg) ∈ ENDPOINT_CONFIGS ∧ shouldPoll cfg.tier c = true := by
  simp only [select_endpoints, scheduledConfigs, List.mem_map, List.mem_filter]
  constructor
  · rintro ⟨⟨n1, cfg⟩, ⟨hm, hp⟩, rfl⟩
    exact ⟨cfg, hm, hp⟩
  · rintro ⟨cfg, hm, hp⟩
    exact ⟨(n, cfg), ⟨hm, hp⟩, rfl⟩

/-- C1: for every cycle index `c`, `select_endpoints c` includes every
catalog endpoint of tier `high`; includes a `medium`-tier endpoint iff
`c % 3 = 0`; and includes a `low`-tier endpoint iff `c % 6 = 0`. -/
theorem C1_select_endpoints_tiers (c : Nat) (n : String) (cfg : EndpointConfig)
    (hmem : (n, cfg) ∈ ENDPOINT_CONFIGS) :
    (cfg.tier = .high → n ∈ select_endpoints c) ∧
    (cfg.tier = .medium → (n ∈ select_endpoints c ↔ c % 3 = 0)) ∧
    (cfg.tier = .low → (n ∈ select_endpoints c ↔ c % 6 = 0)) := by
  refine ⟨fun ht => ?_, fun ht => ?_, fun ht => ?_⟩
  · exact (select_endpoints_mem_iff c n).mpr ⟨cfg, hmem, by simp [shouldPoll, ht]⟩
  · constructor
    · intro hsel
      obtain ⟨cfg1, hm1, hp1⟩ := (select_endpoints_mem_iff c n).mp hsel
      have hcfg : cfg1 = cfg :=
        catalog_key_unique (n, cfg1) hm1 (n, cfg) hmem rfl
      rw [hcfg, ht] at hp1
      simpa [shouldPoll] using hp1
    · intro hmod
      exact (select_endpoints_mem_iff c n).mpr
        ⟨cfg, hmem, by simp [shouldPoll, ht, hmod]⟩
  · constructor
    · intro hsel
      obtain ⟨cfg1, hm1, hp1⟩ := (select_endpoints_mem_iff c n).mp hsel
      have hcfg : cfg1 = cfg :=
        catalog_key_unique (n, cfg1) hm1 (n, cfg) hmem rfl
      rw [hcfg, ht] at hp1
      simpa [shouldPoll] using hp1
    · intro hmod
      exact (select_endpoints_mem_iff c n).mpr
        ⟨cfg, hmem, by simp [shouldPoll, ht, hmod]⟩

theorem C1_select_endpoints_tiers_witness :
    ("laps", (⟨"/laps", .medium, "date_start", some "driver_number", false⟩ :
        EndpointConfig)) ∈ ENDPOINT_CONFIGS ∧
    ("laps" ∈ select_endpoints 3 ↔ 3 % 3 = 0) ∧
    ("laps" ∈ select_endpoints 4 ↔ 4 % 3 = 0) :=
  ⟨by decide,
   (C1_select_endpoints_tiers 3 "laps"
     ⟨"/laps", .medium, "date_start", some "driver_number", false⟩
     (by decide)).2.1 rfl,
   (C1_select_endpoints_tiers 4 "laps"
     ⟨"/laps", .medium, "date_start", some "driver_number", false⟩
     (by decide)).2.1 rfl⟩

/-- C2: when the Session Lifecycle Detector yields no session, the handler
returns the `"no active session"` body immediately: zero poll cycles run,
nothing is written to the State Store, no one-time records are published,
and the result does not depend on (or mutate) the loaded PollState. -/
theorem C2_no_session (env : HandlerEnv) (h : env.detected = none) :
    lambda_handler env =
      { body := .message "no active session", saved := [], cyclesRun := 0,
        oneshotPublished := [], oneshotSent := 0 } := by
  simp [lambda_handler, h]

theorem C2_no_session_witness :
    ({ stored := some ⟨"9159", 7, [("position", "2025-12-07T13:50:12")]⟩,
       detected := none, drivers := none, streamName := "stream", now := "t",
       fetch := fun _ _ _ => .success [], sink := fun _ _ => .ok 0,
       oneshotSink := fun _ => .ok 0 } : HandlerEnv).detected = none ∧
    lambda_handler
      { stored := some ⟨"9159", 7, [("position", "2025-12-07T13:50:12")]⟩,
        detected := none, drivers := none, streamName := "stream", now := "t",
        fetch := fun _ _ _ => .success [], sink := fun _ _ => .ok 0,
        oneshotSink := fun _ => .ok 0 } =
      { body := .message "no active session", saved := [], cyclesRun := 0,
        oneshotPublished := [], oneshotSent := 0 } :=
  ⟨rfl, C2_no_session _ rfl⟩

/-- C8: `put_records_batch` splits the envelope list into contiguous chunks
of at most 500 whose concatenation restores the original list in order. -/
theorem C8_batching (l : List KRecord) :
    (∀ c ∈ chunksOf500 l, c.length ≤ 500) ∧
    (chunksOf500 l).flatten = l ∧
    (∀ sink : Nat → SinkOutcome, put_records_batch sink l =
      if l = [] then 0 else sendChunks sink 0 (chunksOf500 l) 0) :=
  ⟨chunksOf500_length_le l, chunksOf500_flatten l, fun _ => rfl⟩

theorem C8_batching_witness :
    (∀ c ∈ chunksOf500 (List.replicate 501
        ({ Data := { endpoint := "position", session_key := "9159",
                     ingested_at := "t", data := [] },
           PartitionKey := "global" } : KRecord)), c.length ≤ 500) ∧
    (chunksOf500 (List.replicate 501
        ({ Data := { endpoint := "position", session_key := "9159",
                     ingested_at := "t", data := [] },
           PartitionKey := "global" } : KRecord))).flatten =
      List.replicate 501
        ({ Data := { endpoint := "position", session_key := "9159",
                     ingested_at := "t", data := [] },
           PartitionKey := "global" } : KRecord) :=
  ⟨(C8_batching _).1, (C8_batching _).2.1⟩

/-- C9: `run_poll_cycle` increments `invocation_count` by exactly 1 on every
executed cycle, and the handler's initialization step preserves the stored
state (hence the counter) when the detected session key matches, resetting
the counter to 0 only on a fresh start or a session-key change. -/
theorem C9_invocation_count :
    (∀ (env : CycleEnv) (st : PollState),
      (run_poll_cycle env st).state.invocation_count =
        st.invocation_count + 1) ∧
    (∀ (st : PollState) (key : String), st.session_key = key →
      handlerInit (some st) key = (st, false)) ∧
    (∀ key : String, (handlerInit none key).1.invocation_count = 0) ∧
    (∀ (st : PollState) (key : String), st.session_key ≠ key →
      (handlerInit (some st) key).1.invocation_count = 0) := by
  refine ⟨fun env st => rfl, fun st key h => ?_, fun key => rfl,
    fun st key h => ?_⟩
  · simp [handlerInit, h]
  · simp [handlerInit, h, get_initial_state]

theorem C9_invocation_count_witness :
    (run_poll_cycle
        { fetch := fun _ _ => .success [], sink := fun _ => .ok 0,
          streamName := "stream", now := "t" }
        ⟨"9159", 4, []⟩).state.invocation_count = 4 + 1 ∧
    handlerInit (some ⟨"9159", 4, []⟩) "9159" = (⟨"9159", 4, []⟩, false) ∧
    (handlerInit (some ⟨"9159", 4, []⟩) "9160").1.invocation_count = 0 :=
  ⟨C9_invocation_count.1 _ _,
   C9_invocation_count.2.1 _ _ rfl,
   C9_invocation_count.2.2.2 _ _ (by decide)⟩

/-- C5: downsampling never increases the record count, and no two output
records agree on both the `driver_number` value and the whole-second
truncation (first 19 characters) of the `date` value. -/
theorem C5_downsample_bounds (records : List Rec) :
    (downsample_car_data records).length ≤ records.length ∧
    (downsample_car_data records).Pairwise
      (fun r1 r2 => ¬(pyGet r1 "driver_number" = pyGet r2 "driver_number" ∧
        (pyGetD r1 "date" "").take 19 = (pyGetD r2 "date" "").take 19)) := by
  constructor
  · rw [downsample_length_eq]
    have h := foldl_bstep_size records []
    simpa [bucketsSize] using h
  · have hpw := downsample_pairwise_recKey records
    have hmem := downsample_mem_recKey records
    refine hpw.imp_of_mem ?_
    intro a b ha hb hne hcon
    obtain ⟨d1, k1, e1⟩ := hmem a ha
    obtain ⟨d2, k2, e2⟩ := hmem b hb
    obtain ⟨hg1, hk1⟩ := recKey_some a d1 k1 e1
    obtain ⟨hg2, hk2⟩ := recKey_some b d2 k2 e2
    have hd : d1 = d2 := by
      have := hcon.1
      rw [hg1, hg2] at this
      exact Option.some.inj this
    have hk : k1 = k2 := by rw [hk1, hk2, hcon.2]
    exact hne (by rw [e1, e2, hd, hk])

theorem C5_downsample_bounds_witness :
    (downsample_car_data
      [[("driver_number", "44"), ("date", "2025-12-07T13:50:12.100")],
       [("driver_number", "44"), ("date", "2025-12-07T13:50:12.700")],
       [("driver_number", "1"), ("date", "2025-12-07T13:50:12.400")]]).length ≤
      3 ∧
    (downsample_car_data
      [[("driver_number", "44"), ("date", "2025-12-07T13:50:12.100")],
       [("driver_number", "44"), ("date", "2025-12-07T13:50:12.700")],
       [("driver_number", "1"), ("date", "2025-12-07T13:50:12.400")]]).Pairwise
      (fun r1 r2 => ¬(pyGet r1 "driver_number" = pyGet r2 "driver_number" ∧
        (pyGetD r1 "date" "").take 19 = (pyGetD r2 "date" "").take 19)) :=
  C5_downsample_bounds
    [[("driver_number", "44"), ("date", "2025-12-07T13:50:12.100")],
     [("driver_number", "44"), ("date", "2025-12-07T13:50:12.700")],
     [("driver_number", "1"), ("date", "2025-12-07T13:50:12.400")]]

theorem cursorDates_eq_of_nonempty_values (records : List Rec) (field : String)
    (hts : ∀ r ∈ records, ∀ s, pyGet r field = some s → s ≠ "") :
    cursorDates records field = records.filterMap (fun r => pyGet r field) := by
  unfold cursorDates
  apply List.filterMap_congr
  intro r hr
  cases hg : pyGet r field with
  | none => simp
  | some s => simp [hts r hr s hg]

/-- C6: when all present timestamp values are non-empty strings (the spec's
fixed-width ISO-8601 invariant), `advance_cursor` returns none exactly when
the record list is empty or no record carries the field, and otherwise
returns the lexicographic maximum of the carried timestamp strings. -/
theorem C6_advance_cursor (records : List Rec) (field : String)
    (hts : ∀ r ∈ records, ∀ s, pyGet r field = some s → s ≠ "") :
    (advance_cursor records field = none ↔
      (records = [] ∨ ∀ r ∈ records, pyGet r field = none)) ∧
    (∀ m, advance_cursor records field = some m →
      (∃ r ∈ records, pyGet r field = some m) ∧
      (∀ r ∈ records, ∀ s, pyGet r field = some s → s ≤ m)) := by
  have hdates := cursorDates_eq_of_nonempty_values records field hts
  by_cases hnil : records = []
  · subst hnil
    simp [advance_cursor]
  · constructor
    · rw [advance_cursor, if_neg hnil, hdates]
      cases hfm : records.filterMap (fun r => pyGet r field) with
      | nil =>
        exact iff_of_true rfl (Or.inr (List.filterMap_eq_nil_iff.mp hfm))
      | cons d ds =>
        refine iff_of_false (by simp) ?_
        intro h
        rcases h with h | h
        · exact hnil h
        · have hd : d ∈ records.filterMap (fun r => pyGet r field) := by
            rw [hfm]
            exact List.mem_cons_self _ _
          obtain ⟨r, hr, hg⟩ := List.mem_filterMap.mp hd
          rw [h r hr] at hg
          cases hg
    · intro m hm
      rw [advance_cursor, if_neg hnil, hdates] at hm
      cases hfm : records.filterMap (fun r => pyGet r field) with
      | nil =>
        rw [hfm] at hm
        cases hm
      | cons d ds =>
        rw [hfm] at hm
        have hmx : m = ds.foldl max d := (Option.some.inj hm).symm
        constructor
        · have : m ∈ d :: ds := hmx ▸ foldl_max_mem ds d
          rw [← hfm] at this
          obtain ⟨r, hr, hg⟩ := List.mem_filterMap.mp this
          exact ⟨r, hr, hg⟩
        · intro r hr s hg
          have hsmem : s ∈ d :: ds := by
            rw [← hfm]
            exact List.mem_filterMap.mpr ⟨r, hr, hg⟩
          rw [hmx]
          exact mem_cons_le_foldl_max ds d s hsmem

theorem C6_advance_cursor_witness :
    (∀ r ∈ ([[("date", "2025-12-07T13:50:12")], [("meeting", "x")],
        [("date", "2025-12-07T13:50:15")]] : List Rec),
      ∀ s, pyGet r "date" = some s → s ≠ "") ∧
    ((advance_cursor [[("date", "2025-12-07T13:50:12")], [("meeting", "x")],
        [("date", "2025-12-07T13:50:15")]] "date" = none ↔
      (([[("date", "2025-12-07T13:50:12")], [("meeting", "x")],
        [("date", "2025-12-07T13:50:15")]] : List Rec) = [] ∨
       ∀ r ∈ ([[("date", "2025-12-07T13:50:12")], [("meeting", "x")],
         [("date", "2025-12-07T13:50:15")]] : List Rec),
         pyGet r "date" = none)) ∧
     (∀ m, advance_cursor [[("date", "2025-12-07T13:50:12")],
         [("meeting", "x")], [("date", "2025-12-07T13:50:15")]] "date" =
           some m →
       (∃ r ∈ ([[("date", "2025-12-07T13:50:12")], [("meeting", "x")],
          [("date", "2025-12-07T13:50:15")]] : List Rec),
          pyGet r "date" = some m) ∧
       (∀ r ∈ ([[("date", "2025-12-07T13:50:12")], [("meeting", "x")],
          [("date", "2025-12-07T13:50:15")]] : List Rec),
          ∀ s, pyGet r "date" = some s → s ≤ m))) :=
  ⟨by decide, C6_advance_cursor _ "date" (by decide)⟩

/-- C7 counterexample: for endpoint `position` (partition-key field
`driver_number`), a record whose `driver_number` value is present but empty
gets partition key `""`, not the `"global"` the claim requires for records
without a non-empty value. -/
theorem C7_partition_key_counterexample :
    (build_kinesis_records "position" "9159" "2025-12-07T13:50:12"
        [[("driver_number", "")]]).map (fun k => k.PartitionKey) = [""] ∧
    pyGet [("driver_number", "")] "driver_number" = some "" ∧
    ("" : String) ≠ "global" := by
  refine ⟨?_, by decide, by decide⟩
  rfl

/-- C7 (amended): for a catalog endpoint with a declared (non-empty)
partition-key field, the partition key of each envelope is the string form
of the record's value whenever the field is present (even if empty), and
`"global"` only when the field is absent; endpoints without a partition-key
field always get `"global"`. -/
theorem C7_partition_key (name sk now : String) (records : List Rec)
    (cfg : EndpointConfig) (hcfg : configOf name = some cfg) :
    (∀ k, cfg.partition_key_field = some k → k ≠ "" →
      (build_kinesis_records name sk now records).map (fun e => e.PartitionKey)
        = records.map (fun r =>
            match pyGet r k with
            | some v => v
            | none => "global")) ∧
    (cfg.partition_key_field = none →
      (build_kinesis_records name sk now records).map (fun e => e.PartitionKey)
        = records.map (fun _ => "global")) := by
  constructor
  · intro k hk hke
    simp only [build_kinesis_records, hcfg, List.map_map]
    apply List.map_congr_left
    intro r _
    simp only [Function.comp, partitionKeyOf, hk, if_neg hke, pyGetD]
    cases pyGet r k with
    | none => rfl
    | some v => rfl
  · intro hk
    simp only [build_kinesis_records, hcfg, List.map_map]
    apply List.map_congr_left
    intro r _
    simp [Function.comp, partitionKeyOf, hk]

theorem C7_partition_key_witness :
    configOf "position" =
      some ⟨"/position", .high, "date", some "driver_number", false⟩ ∧
    (build_kinesis_records "position" "9159" "t"
        [[("driver_number", "44"), ("x", "1")], [("speed", "301")]]).map
        (fun e => e.PartitionKey) =
      ([[("driver_number", "44"), ("x", "1")], [("speed", "301")]] :
        List Rec).map (fun r =>
          match pyGet r "driver_number" with
          | some v => v
          | none => "global") ∧
    (build_kinesis_records "weather" "9159" "t" [[("x", "1")]]).map
        (fun e => e.PartitionKey) =
      ([[("x", "1")]] : List Rec).map (fun _ => "global") :=
  ⟨by decide,
   (C7_partition_key "position" "9159" "t"
     [[("driver_number", "44"), ("x", "1")], [("speed", "301")]]
     ⟨"/position", .high, "date", some "driver_number", false⟩
     (by decide)).1 "driver_number" rfl (by decide),
   (C7_partition_key "weather" "9159" "t" [[("x", "1")]]
     ⟨"/weather", .low, "date", none, false⟩
     (by decide)).2 rfl⟩

/-- C3: a `RateLimited` outcome for the `i`-th fetched endpoint of a cycle
makes it the last fetch of that cycle: the fetched endpoints are exactly the
first `i+1` scheduled ones, no endpoint scheduled after position `i` is
fetched, and the invocation is not abandoned — the handler still runs all
`CYCLES_PER_INVOCATION` cycles whenever a session is detected. -/
theorem C3_rate_limited_stops_cycle :
    (∀ (env : CycleEnv) (st : PollState) (i : Nat) (c : FetchCall),
      (run_poll_cycle env st).calls[i]? = some c →
      c.result = .rateLimited →
      (run_poll_cycle env st).calls.length = i + 1 ∧
      (run_poll_cycle env st).calls.map (fun x => x.endpoint) =
        (select_endpoints st.invocation_count).take (i + 1) ∧
      (∀ e ∈ (select_endpoints st.invocation_count).drop (i + 1),
        e ∉ (run_poll_cycle env st).calls.map (fun x => x.endpoint))) ∧
    (∀ (henv : HandlerEnv) (key : String) (sdata : Rec),
      henv.detected = some (key, sdata) →
      (lambda_handler henv).cyclesRun = CYCLES_PER_INVOCATION) := by
  constructor
  · intro env st i c hc hres
    have hlen : i + 1 = (run_poll_cycle env st).calls.length :=
      cycleLoop_rateLimited_last env st.session_key
        (scheduledConfigs st.invocation_count) st.cursors i c hc hres
    have htake : (run_poll_cycle env st).calls.map (fun x => x.endpoint) =
        (select_endpoints st.invocation_count).take (i + 1) := by
      have h := cycleLoop_calls_take env st.session_key
        (scheduledConfigs st.invocation_count) st.cursors
      rw [hlen]
      exact h
    refine ⟨hlen.symm, htake, ?_⟩
    intro e hedrop hecalls
    have hnd : (select_endpoints st.invocation_count).Nodup :=
      scheduled_names_nodup st.invocation_count
    have hsplit : ((select_endpoints st.invocation_count).take (i + 1) ++
        (select_endpoints st.invocation_count).drop (i + 1)).Nodup := by
      rw [List.take_append_drop]
      exact hnd
    have hdisj := (List.nodup_append.mp hsplit).2.2
    rw [htake] at hecalls
    exact hdisj hecalls hedrop
  · intro henv key sdata h
    simp [lambda_handler, h]

theorem C3_rate_limited_stops_cycle_witness :
    (run_poll_cycle
      { fetch := fun n _ => if n = "car_data" then .rateLimited
          else .success [],
        sink := fun _ => .ok 0, streamName := "s", now := "t" }
      ⟨"9159", 1, []⟩).calls.length = 1 + 1 ∧
    (lambda_handler
      { stored := none, detected := some ("9159", [("session_key", "9159")]),
        drivers := none, streamName := "", now := "t",
        fetch := fun _ _ _ => .success [], sink := fun _ _ => .ok 0,
        oneshotSink := fun _ => .ok 0 }).cyclesRun = CYCLES_PER_INVOCATION :=
  ⟨(C3_rate_limited_stops_cycle.1
      { fetch := fun n _ => if n = "car_data" then .rateLimited
          else .success [],
        sink := fun _ => .ok 0, streamName := "s", now := "t" }
      ⟨"9159", 1, []⟩ 1 ⟨"car_data", none, .rateLimited⟩
      (by decide) rfl).1,
   C3_rate_limited_stops_cycle.2 _ "9159" [("session_key", "9159")] rfl⟩

/-- C4: an endpoint whose fetch outcome was `Failed` keeps exactly the
cursor it had before the cycle. -/
theorem C4_failed_preserves_cursor (env : CycleEnv) (st : PollState)
    (c : FetchCall) (hc : c ∈ (run_poll_cycle env st).calls)
    (hres : c.result = .failed) :
    alistGet (run_poll_cycle env st).state.cursors c.endpoint =
      alistGet st.cursors c.endpoint :=
  cycleLoop_failed_cursor env st.session_key
    (scheduledConfigs st.invocation_count) st.cursors
    (scheduled_names_nodup st.invocation_count) c hc hres

theorem C4_failed_preserves_cursor_witness :
    alistGet (run_poll_cycle
      { fetch := fun n _ => if n = "position" then .failed
          else .success [[("driver_number", "44"),
            ("date", "2025-12-07T13:50:12")]],
        sink := fun _ => .ok 0, streamName := "s", now := "t" }
      ⟨"9159", 1, [("position", "2025-12-07T13:49:00")]⟩).state.cursors
      "position" =
    alistGet [("position", "2025-12-07T13:49:00")] "position" :=
  C4_failed_preserves_cursor
    { fetch := fun n _ => if n = "position" then .failed
        else .success [[("driver_number", "44"),
          ("date", "2025-12-07T13:50:12")]],
      sink := fun _ => .ok 0, streamName := "s", now := "t" }
    ⟨"9159", 1, [("position", "2025-12-07T13:49:00")]⟩
    ⟨"position", some "2025-12-07T13:49:00", .failed⟩
    (by decide) rfl

theorem run_poll_cycle_sent_ok (env : CycleEnv) (st : PollState)
    (hsink : ∀ j, env.sink j = .ok 0) (hsn : env.streamName ≠ "") :
    (run_poll_cycle env st).sent =
      ((run_poll_cycle env st).published.length : Int) := by
  have hpub : (run_poll_cycle env st).published =
      (cycleLoop env st.session_key (scheduledConfigs st.invocation_count)
        st.cursors).published := rfl
  have hsent : (run_poll_cycle env st).sent =
      (if (cycleLoop env st.session_key (scheduledConfigs st.invocation_count)
            st.cursors).published ≠ [] ∧ env.streamName ≠ "" then
        put_records_batch env.sink
          (cycleLoop env st.session_key (scheduledConfigs st.invocation_count)
            st.cursors).published
      else 0) := rfl
  rw [hsent, hpub]
  by_cases hp : (cycleLoop env st.session_key
      (scheduledConfigs st.invocation_count) st.cursors).published = []
  · rw [if_neg (by simp [hp]), hp]
    rfl
  · rw [if_pos ⟨hp, hsn⟩]
    exact put_records_batch_ok_zero env.sink hsink _

/-- C10: when a cycle is cut short by a `RateLimited` outcome, the envelopes
already built from the earlier successful fetches of that same cycle are not
discarded: the cycle's publish list is exactly the concatenation of the
envelopes contributed by each traced fetch call, and with a fully accepting
sink the cycle's sent total counts every one of them. -/
theorem C10_rate_limited_keeps_earlier_envelopes (env : CycleEnv)
    (st : PollState) (i : Nat) (c : FetchCall)
    (_hc : (run_poll_cycle env st).calls[i]? = some c)
    (_hres : c.result = .rateLimited)
    (hsink : ∀ j, env.sink j = .ok 0) (hsn : env.streamName ≠ "") :
    (run_poll_cycle env st).published =
      ((run_poll_cycle env st).calls.map
        (callEnvelopes env.now st.session_key)).flatten ∧
    (run_poll_cycle env st).sent =
      ((run_poll_cycle env st).published.length : Int) :=
  ⟨cycleLoop_published_eq env st.session_key
      (scheduledConfigs st.invocation_count) st.cursors
      (scheduled_configOf st.invocation_count),
   run_poll_cycle_sent_ok env st hsink hsn⟩

theorem C10_rate_limited_keeps_earlier_envelopes_witness :
    (run_poll_cycle
      { fetch := fun n _ => if n = "car_data" then .rateLimited
          else .success [[("driver_number", "44"),
            ("date", "2025-12-07T13:50:12")]],
        sink := fun _ => .ok 0, streamName := "s", now := "t" }
      ⟨"9159", 1, []⟩).sent =
    ((run_poll_cycle
      { fetch := fun n _ => if n = "car_data" then .rateLimited
          else .success [[("driver_number", "44"),
            ("date", "2025-12-07T13:50:12")]],
        sink := fun _ => .ok 0, streamName := "s", now := "t" }
      ⟨"9159", 1, []⟩).published.length : Int) :=
  (C10_rate_limited_keeps_earlier_envelopes
    { fetch := fun n _ => if n = "car_data" then .rateLimited
        else .success [[("driver_number", "44"),
          ("date", "2025-12-07T13:50:12")]],
      sink := fun _ => .ok 0, streamName := "s", now := "t" }
    ⟨"9159", 1, []⟩ 1 ⟨"car_data", none, .rateLimited⟩
    (by decide) rfl (fun _ => rfl) (by decide)).2
